import Mathlib

/-!
Verification of the PIN-to-JWT authentication subsystem of the Echo backend:
the sliding-window login rate limiter (`utils/auth/rate_limiter.py`), the JWT
token codec (`utils/auth/jwt_handler.py`), the request auth gate
(`utils/auth/brain_auth.py`), and the login route logic
(`routers/brain_auth.py`).

Modelling conventions:
* Python `float` wall-clock timestamps are rationals (`ℚ`);
  Python `int` values are `ℤ`.
* The limiter's `_attempts` dictionary is an association list
  `List (String × List ℚ)` so that the observable key set of the Python
  `defaultdict` (including its insert-on-read behaviour) is modelled
  faithfully.
* Exceptions are modelled with `Except` / explicit outcome constructors.
* Third-party library behaviour (PyJWT's `jwt.encode` / `jwt.decode`,
  bcrypt's `checkpw`) is not part of the repository source; those parts are
  modelled from the spec, as noted on their definitions.
-/

namespace Echo

/-- Python `int(x)` applied to a real number: truncation toward zero. -/
def pyInt (q : ℚ) : ℤ := if q < 0 then -⌊-q⌋ else ⌊q⌋

/-- `RateLimitConfig` from `rate_limiter.py` (defaults: 10 attempts / 600 s). -/
structure RateLimitConfig where
  max_attempts : ℤ
  window_seconds : ℤ
deriving DecidableEq

/-- The `_attempts` mapping: insertion-ordered keyed timestamp lists. -/
abbrev RLState := List (String × List ℚ)

/-- Dictionary lookup on the association list (first matching key). -/
def lookupA : RLState → String → Option (List ℚ)
  | [], _ => none
  | (k, v) :: rest, c => if k = c then some v else lookupA rest c

/-- The timestamp list currently associated with a client
(`[]` for an absent key, matching the `defaultdict(list)` default). -/
def getA (st : RLState) (c : String) : List ℚ := (lookupA st c).getD []

/-- Dictionary assignment `d[k] = v`: overwrite in place, or append a new key. -/
def setA : RLState → String → List ℚ → RLState
  | [], c, v => [(c, v)]
  | (k, w) :: rest, c, v =>
    if k = c then (k, v) :: rest else (k, w) :: setA rest c v

/-- `d.pop(k, None)`: drop the key if present. -/
def removeA (st : RLState) (c : String) : RLState :=
  st.filter (fun kv => kv.1 ≠ c)

/-- Reading `self._attempts[client_id]` on a `defaultdict(list)`: returns the
stored list, and inserts an empty list for a previously unseen key. -/
def readDefault (st : RLState) (c : String) : List ℚ × RLState :=
  match lookupA st c with
  | some v => (v, st)
  | none => ([], st ++ [(c, [])])

/-- The window prune from `check_and_increment` / `get_remaining_attempts`:
`[ts for ts in attempts if ts > now - window_seconds]`. -/
def prune (window_seconds : ℤ) (now : ℚ) (l : List ℚ) : List ℚ :=
  l.filter (fun ts => now - (window_seconds : ℚ) < ts)

/-- Result of one `check_and_increment` call. `valueError` is the Python
`ValueError` that `min([])` would raise (reachable only if
`max_attempts ≤ 0`). -/
inductive RLOutcome where
  | ok : RLOutcome
  | exceeded (retry_after_seconds : ℤ) : RLOutcome
  | valueError : RLOutcome
deriving DecidableEq

/-- Python `min` on a list of floats (`none` on the empty list, where Python
raises `ValueError`). -/
def listMin : List ℚ → Option ℚ
  | [] => none
  | x :: xs => some (xs.foldl min x)

/-- Python `max` on a list of floats. -/
def listMax : List ℚ → Option ℚ
  | [] => none
  | x :: xs => some (xs.foldl max x)

/-- `LoginRateLimiter.check_and_increment`: prune the client's timestamps to
the current window, reject with a retry-after value if the pruned count has
reached `max_attempts`, otherwise record `now`. -/
def check_and_increment (cfg : RateLimitConfig) (st : RLState) (client_id : String)
    (now : ℚ) : RLOutcome × RLState :=
  let r := readDefault st client_id
  let pruned := prune cfg.window_seconds now r.1
  let st1 := setA r.2 client_id pruned
  if cfg.max_attempts ≤ (pruned.length : ℤ) then
    match listMin pruned with
    | none => (.valueError, st1)
    | some oldest =>
        (.exceeded (max 1 (pyInt (oldest + (cfg.window_seconds : ℚ) - now) + 1)), st1)
  else
    (.ok, setA st1 client_id (pruned ++ [now]))

/-- `LoginRateLimiter.get_remaining_attempts`: `max(0, max_attempts - len(recent))`.
The `defaultdict` read inserts an empty entry for an unseen client. -/
def get_remaining_attempts (cfg : RateLimitConfig) (st : RLState) (client_id : String)
    (now : ℚ) : ℤ × RLState :=
  let r := readDefault st client_id
  let recent := prune cfg.window_seconds now r.1
  (max 0 (cfg.max_attempts - (recent.length : ℤ)), r.2)

/-- `LoginRateLimiter.reset`: `self._attempts.pop(client_id, None)`. -/
def reset (st : RLState) (client_id : String) : RLState := removeA st client_id

/-- Staleness test from `cleanup_old_entries`:
`not timestamps or max(timestamps) < cutoff`. -/
def isStale (cutoff : ℚ) (timestamps : List ℚ) : Bool :=
  match listMax timestamps with
  | none => true
  | some m => decide (m < cutoff)

/-- `LoginRateLimiter.cleanup_old_entries`: drop stale clients, returning the
number removed and the new state. -/
def cleanup_old_entries (st : RLState) (max_age_seconds : ℤ) (now : ℚ) :
    ℕ × RLState :=
  let cutoff := now - (max_age_seconds : ℚ)
  ((st.filter (fun kv => isStale cutoff kv.2)).length,
   st.filter (fun kv => ! isStale cutoff kv.2))

/-! ### Association-list lemmas -/

theorem lookupA_setA_self (st : RLState) (c : String) (v : List ℚ) :
    lookupA (setA st c v) c = some v := by
  induction st with
  | nil => simp [setA, lookupA]
  | cons kv rest ih =>
    obtain ⟨k, w⟩ := kv
    by_cases h : k = c
    · simp [setA, lookupA, h]
    · simp [setA, lookupA, h, ih]

theorem getA_setA_self (st : RLState) (c : String) (v : List ℚ) :
    getA (setA st c v) c = v := by
  simp [getA, lookupA_setA_self]

theorem lookupA_setA_ne (st : RLState) (c k : String) (v : List ℚ) (h : k ≠ c) :
    lookupA (setA st c v) k = lookupA st k := by
  induction st with
  | nil =>
    simp only [setA, lookupA]
    rw [if_neg (fun hc => h hc.symm)]
  | cons kv rest ih =>
    obtain ⟨k', w⟩ := kv
    by_cases hk : k' = c
    · subst hk
      simp only [setA, if_pos rfl, lookupA]
      rw [if_neg (fun hc => h hc.symm), if_neg (fun hc => h hc.symm)]
    · simp only [setA, if_neg hk, lookupA]
      by_cases hkk : k' = k
      · rw [if_pos hkk, if_pos hkk]
      · rw [if_neg hkk, if_neg hkk, ih]

theorem lookupA_append_left (st st' : RLState) (c : String) (v : List ℚ)
    (h : lookupA st c = some v) : lookupA (st ++ st') c = some v := by
  induction st with
  | nil => simp [lookupA] at h
  | cons kv rest ih =>
    obtain ⟨k, w⟩ := kv
    by_cases hk : k = c
    · simp_all [lookupA]
    · simp_all [lookupA]

theorem lookupA_append_none (st st' : RLState) (c : String)
    (h : lookupA st c = none) : lookupA (st ++ st') c = lookupA st' c := by
  induction st with
  | nil => simp [lookupA]
  | cons kv rest ih =>
    obtain ⟨k, w⟩ := kv
    by_cases hk : k = c
    · simp_all [lookupA]
    · simp_all [lookupA]

theorem readDefault_fst (st : RLState) (c : String) :
    (readDefault st c).1 = getA st c := by
  unfold readDefault getA
  cases h : lookupA st c <;> simp [h]

theorem getA_readDefault (st : RLState) (c k : String) :
    getA (readDefault st c).2 k = getA st k := by
  unfold readDefault
  cases h : lookupA st c with
  | some v => simp
  | none =>
    simp only [getA]
    cases h' : lookupA st k with
    | some v =>
      rw [lookupA_append_left st _ k v h']
    | none =>
      rw [lookupA_append_none st _ k h']
      by_cases hk : c = k
      · subst hk
        simp [lookupA, h']
      · simp [lookupA, hk, h']

theorem getA_setA_ne (st : RLState) (c k : String) (v : List ℚ) (h : k ≠ c) :
    getA (setA st c v) k = getA st k := by
  simp [getA, lookupA_setA_ne st c k v h]

/-! ### Minimum-of-list lemmas -/

theorem foldl_min_le_init (xs : List ℚ) (a : ℚ) : xs.foldl min a ≤ a := by
  induction xs generalizing a with
  | nil => simp
  | cons x xs ih =>
    calc (x :: xs).foldl min a = xs.foldl min (min a x) := rfl
    _ ≤ min a x := ih (min a x)
    _ ≤ a := min_le_left a x

theorem foldl_min_le_mem (xs : List ℚ) (a y : ℚ) (hy : y ∈ xs) :
    xs.foldl min a ≤ y := by
  induction xs generalizing a with
  | nil => simp at hy
  | cons x xs ih =>
    rcases List.mem_cons.mp hy with h | h
    · subst h
      calc (y :: xs).foldl min a = xs.foldl min (min a y) := rfl
      _ ≤ min a y := foldl_min_le_init xs (min a y)
      _ ≤ y := min_le_right a y
    · exact ih (min a x) h

theorem foldl_min_mem (xs : List ℚ) (a : ℚ) :
    xs.foldl min a = a ∨ xs.foldl min a ∈ xs := by
  induction xs generalizing a with
  | nil => left; rfl
  | cons x xs ih =>
    rcases ih (min a x) with h | h
    · rcases le_total a x with hax | hax
      · left
        rw [List.foldl_cons, h, min_eq_left hax]
      · right
        rw [List.foldl_cons, h, min_eq_right hax]
        exact List.mem_cons_self x xs
    · right
      rw [List.foldl_cons]
      exact List.mem_cons_of_mem x h

theorem listMin_spec (l : List ℚ) (hl : l ≠ []) :
    ∃ m, listMin l = some m ∧ m ∈ l ∧ ∀ y ∈ l, m ≤ y := by
  cases l with
  | nil => exact absurd rfl hl
  | cons x xs =>
    refine ⟨xs.foldl min x, rfl, ?_, ?_⟩
    · rcases foldl_min_mem xs x with h | h
      · simp [h]
      · exact List.mem_cons_of_mem x h
    · intro y hy
      rcases List.mem_cons.mp hy with h | h
      · exact h ▸ foldl_min_le_init xs x
      · exact foldl_min_le_mem xs x y h

/-! ### Branch characterizations for `check_and_increment` -/

theorem check_and_increment_ok (cfg : RateLimitConfig) (st : RLState)
    (client_id : String) (now : ℚ)
    (h : ((prune cfg.window_seconds now (getA st client_id)).length : ℤ) < cfg.max_attempts) :
    check_and_increment cfg st client_id now =
      (.ok, setA (setA (readDefault st client_id).2 client_id
              (prune cfg.window_seconds now (getA st client_id))) client_id
            (prune cfg.window_seconds now (getA st client_id) ++ [now])) := by
  simp only [check_and_increment, readDefault_fst]
  rw [if_neg (not_le.mpr h)]

theorem check_and_increment_reject (cfg : RateLimitConfig) (st : RLState)
    (client_id : String) (now : ℚ)
    (hmax : 1 ≤ cfg.max_attempts)
    (h : cfg.max_attempts ≤ ((prune cfg.window_seconds now (getA st client_id)).length : ℤ)) :
    ∃ oldest,
      oldest ∈ prune cfg.window_seconds now (getA st client_id) ∧
      (∀ y ∈ prune cfg.window_seconds now (getA st client_id), oldest ≤ y) ∧
      check_and_increment cfg st client_id now =
        (.exceeded (max 1 (pyInt (oldest + (cfg.window_seconds : ℚ) - now) + 1)),
         setA (readDefault st client_id).2 client_id
           (prune cfg.window_seconds now (getA st client_id))) := by
  have hne : prune cfg.window_seconds now (getA st client_id) ≠ [] := by
    intro hnil
    rw [hnil] at h
    simp at h
    omega
  obtain ⟨m, hmin, hmem, hle⟩ := listMin_spec _ hne
  refine ⟨m, hmem, hle, ?_⟩
  simp only [check_and_increment, readDefault_fst]
  rw [if_pos h, hmin]

/-- Any element surviving the prune is strictly newer than the window start. -/
theorem mem_prune (window_seconds : ℤ) (now : ℚ) (l : List ℚ) (t : ℚ) :
    t ∈ prune window_seconds now l ↔ t ∈ l ∧ now - (window_seconds : ℚ) < t := by
  simp [prune, List.mem_filter]

/-- For a survivor of the prune, the computed retry-after value equals
`⌊oldest + window - now⌋ + 1` and is at least 1 (so the `max(1, ·)` in the
source and the `int(·)` truncation both coincide with the floor form). -/
theorem retry_after_eq (window_seconds : ℤ) (now oldest : ℚ)
    (h : now - (window_seconds : ℚ) < oldest) :
    max 1 (pyInt (oldest + (window_seconds : ℚ) - now) + 1) =
      ⌊oldest + (window_seconds : ℚ) - now⌋ + 1 ∧
    1 ≤ ⌊oldest + (window_seconds : ℚ) - now⌋ + 1 := by
  have hpos : 0 < oldest + (window_seconds : ℚ) - now := by linarith
  have hfloor : 0 ≤ ⌊oldest + (window_seconds : ℚ) - now⌋ :=
    Int.floor_nonneg.mpr hpos.le
  have hpy : pyInt (oldest + (window_seconds : ℚ) - now) =
      ⌊oldest + (window_seconds : ℚ) - now⌋ := by
    unfold pyInt
    rw [if_neg (not_lt.mpr hpos.le)]
  constructor
  · rw [hpy]
    omega
  · omega

/-- C1: each `check_and_increment` call first prunes the client's retained
timestamps to those strictly newer than `now - window_seconds`; if the
remaining count has reached `max_attempts` it fails with
`retry_after_seconds = ⌊oldest + window_seconds - now⌋ + 1 ≥ 1` (for the
oldest retained timestamp) and records nothing; otherwise it appends `now`
and succeeds.  (`1 ≤ max_attempts` as in every deployed configuration;
with `max_attempts ≤ 0` the Python code would instead crash in `min([])`.) -/
theorem claim_C1_check_and_increment (cfg : RateLimitConfig) (st : RLState)
    (client_id : String) (now : ℚ) (hmax : 1 ≤ cfg.max_attempts) :
    (∀ t, t ∈ prune cfg.window_seconds now (getA st client_id) ↔
       t ∈ getA st client_id ∧ now - (cfg.window_seconds : ℚ) < t)
    ∧ (cfg.max_attempts ≤ ((prune cfg.window_seconds now (getA st client_id)).length : ℤ) →
       ∃ oldest,
         oldest ∈ prune cfg.window_seconds now (getA st client_id) ∧
         (∀ y ∈ prune cfg.window_seconds now (getA st client_id), oldest ≤ y) ∧
         (check_and_increment cfg st client_id now).1 =
           .exceeded (⌊oldest + (cfg.window_seconds : ℚ) - now⌋ + 1) ∧
         1 ≤ ⌊oldest + (cfg.window_seconds : ℚ) - now⌋ + 1 ∧
         getA (check_and_increment cfg st client_id now).2 client_id =
           prune cfg.window_seconds now (getA st client_id))
    ∧ (((prune cfg.window_seconds now (getA st client_id)).length : ℤ) < cfg.max_attempts →
       (check_and_increment cfg st client_id now).1 = .ok ∧
       getA (check_and_increment cfg st client_id now).2 client_id =
         prune cfg.window_seconds now (getA st client_id) ++ [now]) := by
  refine ⟨fun t => mem_prune cfg.window_seconds now (getA st client_id) t, ?_, ?_⟩
  · intro h
    obtain ⟨m, hmem, hle, heq⟩ :=
      check_and_increment_reject cfg st client_id now hmax h
    have hwin : now - (cfg.window_seconds : ℚ) < m :=
      ((mem_prune cfg.window_seconds now (getA st client_id) m).mp hmem).2
    obtain ⟨hmax1, hge1⟩ := retry_after_eq cfg.window_seconds now m hwin
    refine ⟨m, hmem, hle, ?_, hge1, ?_⟩
    · rw [heq]
      simp [hmax1]
    · rw [heq]
      simp [getA_setA_self]
  · intro h
    rw [check_and_increment_ok cfg st client_id now h]
    simp [getA_setA_self]

/-- Witness for C1: with `max_attempts = 3, window = 60`, a client holding
three in-window timestamps is rejected with a retry-after of at least 1, and
a fresh client's attempt is recorded. -/
theorem claim_C1_witness :
    (∃ r, (check_and_increment ⟨3, 60⟩ [("c", [10, 20, 100])] "c" 30).1 =
        RLOutcome.exceeded r ∧ 1 ≤ r)
    ∧ (check_and_increment ⟨3, 60⟩ [] "d" 30).1 = RLOutcome.ok := by
  have hget : getA [("c", [10, 20, 100])] "c" = [10, 20, 100] := rfl
  have hpr : prune (60 : ℤ) (30 : ℚ) [10, 20, 100] = [10, 20, 100] := by
    unfold prune
    norm_num
  constructor
  · have h := (claim_C1_check_and_increment ⟨3, 60⟩ [("c", [10, 20, 100])] "c" 30
      (by decide)).2.1
    rw [hget, hpr] at h
    obtain ⟨m, _, _, heq, hge, _⟩ := h (by norm_num)
    exact ⟨⌊m + ((60 : ℤ) : ℚ) - 30⌋ + 1, heq, hge⟩
  · have h := (claim_C1_check_and_increment ⟨3, 60⟩ [] "d" 30 (by decide)).2.2
    have hget2 : getA ([] : RLState) "d" = [] := rfl
    rw [hget2] at h
    exact (h (by simp [prune])).1

/-! ### Operation sequences over the rate-limiter state (for the invariant) -/

/-- The public operations of `LoginRateLimiter`: `check_and_increment`,
`reset`, `get_remaining_attempts`, `cleanup_old_entries`. -/
inductive RLOp where
  | check (client_id : String) (now : ℚ)
  | resetClient (client_id : String)
  | remaining (client_id : String) (now : ℚ)
  | cleanup (max_age_seconds : ℤ) (now : ℚ)

/-- Effect of one limiter operation on the state. -/
def applyOp (cfg : RateLimitConfig) (st : RLState) : RLOp → RLState
  | .check c now => (check_and_increment cfg st c now).2
  | .resetClient c => reset st c
  | .remaining c now => (get_remaining_attempts cfg st c now).2
  | .cleanup age now => (cleanup_old_entries st age now).2

/-- State reached from the fresh (empty) limiter after a sequence of calls. -/
def runOps (cfg : RateLimitConfig) (ops : List RLOp) : RLState :=
  ops.foldl (applyOp cfg) []

/-- Every entry of the state holds at most `max_attempts` timestamps. -/
def EntriesBounded (cfg : RateLimitConfig) (st : RLState) : Prop :=
  ∀ kv ∈ st, ((kv.2 : List ℚ).length : ℤ) ≤ cfg.max_attempts

theorem lookupA_mem (st : RLState) (c : String) (v : List ℚ)
    (h : lookupA st c = some v) : (c, v) ∈ st := by
  induction st with
  | nil => simp [lookupA] at h
  | cons kv rest ih =>
    obtain ⟨k, w⟩ := kv
    by_cases hk : k = c
    · subst hk
      rw [lookupA, if_pos rfl] at h
      obtain rfl : w = v := Option.some_injective _ h
      exact List.mem_cons_self _ _
    · rw [lookupA, if_neg hk] at h
      exact List.mem_cons_of_mem _ (ih h)

theorem getA_cases (st : RLState) (c : String) :
    getA st c = [] ∨ (c, getA st c) ∈ st := by
  unfold getA
  cases h : lookupA st c with
  | none => left; rfl
  | some v => right; exact lookupA_mem st c v h

theorem getA_length_le (cfg : RateLimitConfig) (st : RLState) (c : String)
    (h0 : 0 ≤ cfg.max_attempts) (hb : EntriesBounded cfg st) :
    ((getA st c).length : ℤ) ≤ cfg.max_attempts := by
  rcases getA_cases st c with h | h
  · rw [h]; simpa using h0
  · exact hb (c, getA st c) h

theorem mem_setA (st : RLState) (c : String) (v : List ℚ)
    (kv : String × List ℚ) (h : kv ∈ setA st c v) : kv ∈ st ∨ kv = (c, v) := by
  induction st with
  | nil =>
    right
    simpa [setA] using h
  | cons kw rest ih =>
    obtain ⟨k, w⟩ := kw
    by_cases hk : k = c
    · subst hk
      rw [setA, if_pos rfl] at h
      rcases List.mem_cons.mp h with h | h
      · right; exact h
      · left; exact List.mem_cons_of_mem _ h
    · rw [setA, if_neg hk] at h
      rcases List.mem_cons.mp h with h | h
      · left; exact h ▸ List.mem_cons_self _ _
      · rcases ih h with h' | h'
        · left; exact List.mem_cons_of_mem _ h'
        · right; exact h'

theorem mem_readDefault_snd (st : RLState) (c : String) (kv : String × List ℚ)
    (h : kv ∈ (readDefault st c).2) : kv ∈ st ∨ kv = (c, []) := by
  unfold readDefault at h
  cases hl : lookupA st c with
  | some v => rw [hl] at h; left; exact h
  | none =>
    rw [hl] at h
    rcases List.mem_append.mp h with h | h
    · left; exact h
    · right; simpa using h

theorem EntriesBounded_setA (cfg : RateLimitConfig) (st : RLState) (c : String)
    (v : List ℚ) (hb : EntriesBounded cfg st)
    (hv : (v.length : ℤ) ≤ cfg.max_attempts) :
    EntriesBounded cfg (setA st c v) := by
  intro kv hkv
  rcases mem_setA st c v kv hkv with h | h
  · exact hb kv h
  · rw [h]; exact hv

theorem EntriesBounded_readDefault (cfg : RateLimitConfig) (st : RLState)
    (c : String) (h0 : 0 ≤ cfg.max_attempts) (hb : EntriesBounded cfg st) :
    EntriesBounded cfg (readDefault st c).2 := by
  intro kv hkv
  rcases mem_readDefault_snd st c kv hkv with h | h
  · exact hb kv h
  · rw [h]; simpa using h0

theorem EntriesBounded_filter (cfg : RateLimitConfig) (st : RLState)
    (p : String × List ℚ → Bool) (hb : EntriesBounded cfg st) :
    EntriesBounded cfg (st.filter p) := by
  intro kv hkv
  exact hb kv (List.mem_filter.mp hkv).1

/-- The two possible post-states of `check_and_increment`. -/
theorem check_and_increment_snd_cases (cfg : RateLimitConfig) (st : RLState)
    (c : String) (now : ℚ) :
    (check_and_increment cfg st c now).2 =
       setA (readDefault st c).2 c (prune cfg.window_seconds now (getA st c))
    ∨ ((check_and_increment cfg st c now).2 =
         setA (setA (readDefault st c).2 c (prune cfg.window_seconds now (getA st c))) c
           (prune cfg.window_seconds now (getA st c) ++ [now]) ∧
       ((prune cfg.window_seconds now (getA st c)).length : ℤ) < cfg.max_attempts) := by
  simp only [check_and_increment, readDefault_fst]
  by_cases h : cfg.max_attempts ≤ ((prune cfg.window_seconds now (getA st c)).length : ℤ)
  · rw [if_pos h]
    cases listMin (prune cfg.window_seconds now (getA st c)) <;> simp
  · rw [if_neg h]
    right
    exact ⟨rfl, not_le.mp h⟩

theorem EntriesBounded_check (cfg : RateLimitConfig) (st : RLState) (c : String)
    (now : ℚ) (h0 : 0 ≤ cfg.max_attempts) (hb : EntriesBounded cfg st) :
    EntriesBounded cfg (check_and_increment cfg st c now).2 := by
  have hgetA : ((getA st c).length : ℤ) ≤ cfg.max_attempts :=
    getA_length_le cfg st c h0 hb
  have hpr : ((prune cfg.window_seconds now (getA st c)).length : ℤ) ≤ cfg.max_attempts := by
    have := List.length_filter_le (fun ts => decide (now - (cfg.window_seconds : ℚ) < ts))
      (getA st c)
    have hcast : ((prune cfg.window_seconds now (getA st c)).length : ℤ)
        ≤ ((getA st c).length : ℤ) := by
      exact_mod_cast this
    omega
  have hrd := EntriesBounded_readDefault cfg st c h0 hb
  rcases check_and_increment_snd_cases cfg st c now with h | ⟨h, hlt⟩
  · rw [h]
    exact EntriesBounded_setA cfg _ c _ hrd hpr
  · rw [h]
    refine EntriesBounded_setA cfg _ c _ (EntriesBounded_setA cfg _ c _ hrd hpr) ?_
    simp only [List.length_append, List.length_cons, List.length_nil]
    push_cast
    omega

theorem EntriesBounded_applyOp (cfg : RateLimitConfig) (st : RLState) (op : RLOp)
    (h0 : 0 ≤ cfg.max_attempts) (hb : EntriesBounded cfg st) :
    EntriesBounded cfg (applyOp cfg st op) := by
  cases op with
  | check c now => exact EntriesBounded_check cfg st c now h0 hb
  | resetClient c => exact EntriesBounded_filter cfg st _ hb
  | remaining c now =>
    simp only [applyOp, get_remaining_attempts]
    exact EntriesBounded_readDefault cfg st c h0 hb
  | cleanup age now => exact EntriesBounded_filter cfg st _ hb

theorem EntriesBounded_runOps (cfg : RateLimitConfig) (ops : List RLOp)
    (h0 : 0 ≤ cfg.max_attempts) : EntriesBounded cfg (runOps cfg ops) := by
  have aux : ∀ (l : List RLOp) (st : RLState), EntriesBounded cfg st →
      EntriesBounded cfg (l.foldl (applyOp cfg) st) := by
    intro l
    induction l with
    | nil => intro st hst; exact hst
    | cons op l ih =>
      intro st hst
      exact ih (applyOp cfg st op) (EntriesBounded_applyOp cfg st op h0 hst)
  exact aux ops [] (by intro kv hkv; simp at hkv)

/-- In the rejecting branch nothing is appended and the call does not succeed. -/
theorem check_and_increment_reject_state (cfg : RateLimitConfig) (st : RLState)
    (c : String) (now : ℚ)
    (h : cfg.max_attempts ≤ ((prune cfg.window_seconds now (getA st c)).length : ℤ)) :
    (check_and_increment cfg st c now).1 ≠ .ok ∧
    getA (check_and_increment cfg st c now).2 c =
      prune cfg.window_seconds now (getA st c) := by
  simp only [check_and_increment, readDefault_fst]
  rw [if_pos h]
  cases listMin (prune cfg.window_seconds now (getA st c)) <;>
    simp [getA_setA_self]

/-- C2: starting from a fresh limiter, after any sequence of
`check_and_increment` / `reset` / `get_remaining_attempts` /
`cleanup_old_entries` calls, no client's in-window timestamp count ever
exceeds `max_attempts`; and whenever a client's in-window count has reached
`max_attempts`, the next `check_and_increment` for that client is rejected
and appends nothing. -/
theorem claim_C2_rate_limit_invariant (cfg : RateLimitConfig)
    (hmax : 0 ≤ cfg.max_attempts) (ops : List RLOp) :
    (∀ (client_id : String) (now : ℚ),
       ((prune cfg.window_seconds now (getA (runOps cfg ops) client_id)).length : ℤ)
         ≤ cfg.max_attempts)
    ∧ (∀ (st : RLState) (client_id : String) (now : ℚ),
       cfg.max_attempts ≤
           ((prune cfg.window_seconds now (getA st client_id)).length : ℤ) →
       (check_and_increment cfg st client_id now).1 ≠ .ok ∧
       getA (check_and_increment cfg st client_id now).2 client_id =
         prune cfg.window_seconds now (getA st client_id)) := by
  constructor
  · intro client_id now
    have hb := EntriesBounded_runOps cfg ops hmax
    have hlen := getA_length_le cfg (runOps cfg ops) client_id hmax hb
    have hfil := List.length_filter_le
      (fun ts => decide (now - (cfg.window_seconds : ℚ) < ts)) (getA (runOps cfg ops) client_id)
    have hcast : ((prune cfg.window_seconds now (getA (runOps cfg ops) client_id)).length : ℤ)
        ≤ ((getA (runOps cfg ops) client_id).length : ℤ) := by
      exact_mod_cast hfil
    omega
  · intro st client_id now h
    exact check_and_increment_reject_state cfg st client_id now h

/-- Witness for C2: after two checks for client `"c"` on a one-attempt
limiter, the in-window count stays at most 1, and a client already at
capacity is rejected. -/
theorem claim_C2_witness :
    (((prune 60 0 (getA (runOps ⟨1, 60⟩ [RLOp.check "c" 0, RLOp.check "c" 0]) "c")).length : ℤ) ≤ 1)
    ∧ (check_and_increment ⟨1, 60⟩ [("c", [0])] "c" 0).1 ≠ RLOutcome.ok := by
  constructor
  · exact (claim_C2_rate_limit_invariant ⟨1, 60⟩ (by decide)
      [RLOp.check "c" 0, RLOp.check "c" 0]).1 "c" 0
  · refine ((claim_C2_rate_limit_invariant ⟨1, 60⟩ (by decide) []).2
      [("c", [0])] "c" 0 ?_).1
    have hget : getA [("c", [0])] "c" = [0] := rfl
    have hpr : prune (60 : ℤ) (0 : ℚ) [0] = [0] := by
      unfold prune
      norm_num
    rw [hget, hpr]
    norm_num

/-- C9 (as stated) fails: `get_remaining_attempts` for a never-seen client
inserts an empty entry into the state mapping (a `defaultdict` read side
effect), so the mapping does not stay unchanged. -/
theorem claim_C9_counterexample :
    (get_remaining_attempts ⟨10, 600⟩ [] "x" 0).2 ≠ ([] : RLState) := by
  decide

/-- C9 (amended): `get_remaining_attempts` returns
`max(0, max_attempts - in_window_count)` for every client (including unseen
ones) and leaves every client's retained timestamp list unchanged; the
underlying mapping may only gain an empty entry for a previously unseen
client. -/
theorem claim_C9_remaining_read_only (cfg : RateLimitConfig) (st : RLState)
    (client_id : String) (now : ℚ) :
    (get_remaining_attempts cfg st client_id now).1 =
      max 0 (cfg.max_attempts -
        ((prune cfg.window_seconds now (getA st client_id)).length : ℤ))
    ∧ ∀ k, getA (get_remaining_attempts cfg st client_id now).2 k = getA st k := by
  constructor
  · simp only [get_remaining_attempts, readDefault_fst]
  · intro k
    simp only [get_remaining_attempts]
    exact getA_readDefault st client_id k

/-! ### JWT token codec

`jwt_handler.py` delegates serialization and signing to PyJWT, which is not
part of this repository.  The compact serialization (three dot-separated
segments and an HMAC signature over the first two) is modelled from the spec
with an executable, injective, dot-free character-level codec; the HMAC is
modelled as a deterministic dot-free function of the key and the signed
bytes.  Only the properties the spec claims of the library are used:
determinism, the three-segment layout, and recompute-and-compare signature
checking. -/

/-- Decimal digit character (`'0'`–`'9'`). -/
def digChar (d : ℕ) : Char := Char.ofNat (48 + d)

/-- Little-endian decimal digits of `n`, fuel-based so that the kernel can
evaluate it. -/
def natDigitsAux : ℕ → ℕ → List ℕ
  | 0, _ => []
  | fuel + 1, n => if n = 0 then [] else n % 10 :: natDigitsAux fuel (n / 10)

/-- Little-endian decimal digits of `n`. -/
def natDigits (n : ℕ) : List ℕ := natDigitsAux n n

/-- Encode a natural number as little-endian digit characters. -/
def encNat (n : ℕ) : List Char := (natDigits n).map digChar

/-- Value of a little-endian digit list. -/
def valNat (l : List ℕ) : ℕ := l.foldr (fun d acc => d + 10 * acc) 0

/-- Decode little-endian digit characters. -/
def decNat (l : List Char) : ℕ := l.foldr (fun c acc => (c.toNat - 48) + 10 * acc) 0

theorem valNat_cons (d : ℕ) (l : List ℕ) : valNat (d :: l) = d + 10 * valNat l := rfl

theorem decNat_cons (c : Char) (l : List Char) :
    decNat (c :: l) = (c.toNat - 48) + 10 * decNat l := rfl

theorem digChar_toNat (d : ℕ) (h : d < 10) : (digChar d).toNat = 48 + d := by
  interval_cases d <;> decide

theorem natDigitsAux_lt (fuel n : ℕ) : ∀ d ∈ natDigitsAux fuel n, d < 10 := by
  induction fuel generalizing n with
  | zero => intro d hd; simp [natDigitsAux] at hd
  | succ fuel ih =>
    intro d hd
    rw [natDigitsAux] at hd
    by_cases hn : n = 0
    · simp [hn] at hd
    · rw [if_neg hn] at hd
      rcases List.mem_cons.mp hd with h | h
      · subst h; exact Nat.mod_lt n (by norm_num)
      · exact ih (n / 10) d h

theorem natDigitsAux_val (fuel n : ℕ) (h : n ≤ fuel) :
    valNat (natDigitsAux fuel n) = n := by
  induction fuel generalizing n with
  | zero =>
    have hn : n = 0 := Nat.le_zero.mp h
    subst hn
    rfl
  | succ fuel ih =>
    rw [natDigitsAux]
    by_cases hn : n = 0
    · rw [if_pos hn, hn]; rfl
    · rw [if_neg hn, valNat_cons]
      have hlt : n / 10 < n := Nat.div_lt_self (Nat.pos_of_ne_zero hn) (by norm_num)
      have hdiv : n / 10 ≤ fuel := by omega
      rw [ih (n / 10) hdiv]
      omega

theorem decNat_map_digChar (ds : List ℕ) (h : ∀ d ∈ ds, d < 10) :
    decNat (ds.map digChar) = valNat ds := by
  induction ds with
  | nil => rfl
  | cons d ds ih =>
    rw [List.map_cons, decNat_cons, valNat_cons,
      digChar_toNat d (h d (List.mem_cons_self d ds)),
      ih (fun x hx => h x (List.mem_cons_of_mem d hx))]
    omega

theorem decNat_encNat (n : ℕ) : decNat (encNat n) = n := by
  unfold encNat natDigits
  rw [decNat_map_digChar _ (natDigitsAux_lt n n)]
  exact natDigitsAux_val n n le_rfl

/-- Encode a character list as `'g'`-terminated digit groups. -/
def encStrL (s : List Char) : List Char :=
  (s.map (fun ch => encNat ch.toNat ++ ['g'])).flatten

/-- Split a character list at every occurrence of the delimiter. -/
def splitOnC (d : Char) : List Char → List (List Char)
  | [] => [[]]
  | c :: cs =>
    if c = d then [] :: splitOnC d cs
    else
      match splitOnC d cs with
      | [] => [[c]]
      | p :: ps => (c :: p) :: ps

/-- Decode a `'g'`-terminated digit-group encoding (total; garbage tolerated). -/
def decStrL (l : List Char) : List Char :=
  ((splitOnC 'g' l).dropLast).map (fun grp => Char.ofNat (decNat grp))

theorem splitOnC_ne_nil (d : Char) (l : List Char) : splitOnC d l ≠ [] := by
  cases l with
  | nil => simp [splitOnC]
  | cons c cs =>
    rw [splitOnC]
    by_cases h : c = d
    · simp [h]
    · rw [if_neg h]
      cases splitOnC d cs <;> simp

theorem splitOnC_no_delim (d : Char) (l : List Char) (h : d ∉ l) :
    splitOnC d l = [l] := by
  induction l with
  | nil => rfl
  | cons c cs ih =>
    rw [splitOnC]
    have hc : c ≠ d := fun hc => h (hc ▸ List.mem_cons_self c cs)
    rw [if_neg hc, ih (fun hm => h (List.mem_cons_of_mem c hm))]

theorem splitOnC_append (d : Char) (a rest : List Char) (h : d ∉ a) :
    splitOnC d (a ++ d :: rest) = a :: splitOnC d rest := by
  induction a with
  | nil => simp [splitOnC]
  | cons c cs ih =>
    have hc : c ≠ d := fun hc => h (hc ▸ List.mem_cons_self c cs)
    rw [List.cons_append, splitOnC, if_neg hc,
      ih (fun hm => h (List.mem_cons_of_mem c hm))]

theorem mem_encNat (ch : Char) (n : ℕ) (h : ch ∈ encNat n) :
    ∃ d, d < 10 ∧ ch = digChar d := by
  unfold encNat natDigits at h
  obtain ⟨d, hd, he⟩ := List.mem_map.mp h
  exact ⟨d, natDigitsAux_lt n n d hd, he.symm⟩

theorem g_notMem_encNat (n : ℕ) : 'g' ∉ encNat n := by
  intro h
  obtain ⟨d, hd, he⟩ := mem_encNat _ n h
  revert he
  interval_cases d <;> decide

theorem mem_encStrL (ch : Char) (s : List Char) (h : ch ∈ encStrL s) :
    ch = 'g' ∨ ∃ d, d < 10 ∧ ch = digChar d := by
  unfold encStrL at h
  rw [List.mem_flatten] at h
  obtain ⟨grp, hgrp, hc⟩ := h
  obtain ⟨c0, _, he⟩ := List.mem_map.mp hgrp
  rw [← he] at hc
  rcases List.mem_append.mp hc with h' | h'
  · right; exact mem_encNat ch _ h'
  · left; simpa using h'

theorem decStrL_encStrL (s : List Char) : decStrL (encStrL s) = s := by
  induction s with
  | nil => rfl
  | cons ch s ih =>
    have hg : 'g' ∉ encNat ch.toNat := g_notMem_encNat _
    have hexp : encStrL (ch :: s) = encNat ch.toNat ++ 'g' :: encStrL s := by
      simp [encStrL]
    unfold decStrL
    rw [hexp, splitOnC_append 'g' _ _ hg]
    have hne := splitOnC_ne_nil 'g' (encStrL s)
    cases hsp : splitOnC 'g' (encStrL s) with
    | nil => exact absurd hsp hne
    | cons p ps =>
      rw [List.dropLast_cons₂, List.map_cons, decNat_encNat, Char.ofNat_toNat]
      unfold decStrL at ih
      rw [hsp] at ih
      rw [ih]

/-! ### Claim-set serialization -/

/-- Encode an optional string field (`'n'` = absent, `'j'` = present). -/
def encOptS : Option (List Char) → List Char
  | none => ['n']
  | some s => 'j' :: encStrL s

/-- Decode an optional string field. -/
def decOptS (l : List Char) : Option (Option (List Char)) :=
  match l with
  | [] => none
  | c :: rest =>
    if c = 'j' then some (some (decStrL rest))
    else if c = 'n' ∧ rest = [] then some none
    else none

/-- Encode an integer (sign marker `'m'`/`'q'`, then digits). -/
def encInt (i : ℤ) : List Char :=
  (if i < 0 then 'm' else 'q') :: encNat i.natAbs

/-- Decode an integer. -/
def decInt (l : List Char) : Option ℤ :=
  match l with
  | [] => none
  | c :: rest =>
    if c = 'm' then some (-(decNat rest : ℤ))
    else if c = 'q' then some ((decNat rest : ℤ))
    else none

/-- Encode an optional integer field. -/
def encOptI : Option ℤ → List Char
  | none => ['n']
  | some i => 'j' :: encInt i

/-- Decode an optional integer field. -/
def decOptI (l : List Char) : Option (Option ℤ) :=
  match l with
  | [] => none
  | c :: rest =>
    if c = 'j' then (decInt rest).map some
    else if c = 'n' ∧ rest = [] then some none
    else none

/-- The JSON claim object of a token: the four claims `sub`, `iat`, `exp`,
`jti`, each possibly absent. -/
structure ClaimsObj where
  sub : Option String
  iat : Option ℤ
  exp : Option ℤ
  jti : Option String
deriving DecidableEq

/-- Serialize the claim object (fields joined by `'c'`). -/
def encClaims (cm : ClaimsObj) : List Char :=
  encOptS (cm.sub.map String.data) ++
    ('c' :: (encOptI cm.iat ++
      ('c' :: (encOptI cm.exp ++
        ('c' :: encOptS (cm.jti.map String.data))))))

/-- Parse a claim object (fails on malformed input). -/
def decClaims (l : List Char) : Option ClaimsObj :=
  match splitOnC 'c' l with
  | [a, b, d, e] =>
    match decOptS a, decOptI b, decOptI d, decOptS e with
    | some sub, some iat, some ex, some jti =>
        some ⟨sub.map List.asString, iat, ex, jti.map List.asString⟩
    | _, _, _, _ => none
  | _ => none

theorem asString_data (s : String) : (String.data s).asString = s := by
  cases s; rfl

theorem opt_asString_data (o : Option String) :
    (o.map String.data).map List.asString = o := by
  cases o with
  | none => rfl
  | some s => simp [asString_data]

theorem decStrL_encStrL_opt (o : Option (List Char)) :
    decOptS (encOptS o) = some o := by
  cases o with
  | none => simp [encOptS, decOptS]
  | some s => simp [encOptS, decOptS, decStrL_encStrL]

theorem decInt_encInt (i : ℤ) : decInt (encInt i) = some i := by
  by_cases h : i < 0
  · have habs : (i.natAbs : ℤ) = -i := by omega
    simp [encInt, decInt, h, decNat_encNat, habs]
  · have habs : (i.natAbs : ℤ) = i := by omega
    simp [encInt, decInt, h, decNat_encNat, habs]

theorem decOptI_encOptI (o : Option ℤ) : decOptI (encOptI o) = some o := by
  cases o with
  | none => simp [encOptI, decOptI]
  | some i => simp [encOptI, decOptI, decInt_encInt]

theorem mem_encOptS (ch : Char) (o : Option (List Char)) (h : ch ∈ encOptS o) :
    ch = 'n' ∨ ch = 'j' ∨ ch = 'g' ∨ ∃ d, d < 10 ∧ ch = digChar d := by
  cases o with
  | none => left; simpa [encOptS] using h
  | some s =>
    rcases List.mem_cons.mp h with h' | h'
    · right; left; exact h'
    · rcases mem_encStrL ch s h' with h'' | h''
      · right; right; left; exact h''
      · right; right; right; exact h''

theorem mem_encOptI (ch : Char) (o : Option ℤ) (h : ch ∈ encOptI o) :
    ch = 'n' ∨ ch = 'j' ∨ ch = 'm' ∨ ch = 'q' ∨ ∃ d, d < 10 ∧ ch = digChar d := by
  cases o with
  | none => left; simpa [encOptI] using h
  | some i =>
    rcases List.mem_cons.mp h with h' | h'
    · right; left; exact h'
    · unfold encInt at h'
      rcases List.mem_cons.mp h' with h'' | h''
      · by_cases hi : i < 0
        · right; right; left; rw [if_pos hi] at h''; exact h''
        · right; right; right; left; rw [if_neg hi] at h''; exact h''
      · right; right; right; right; exact mem_encNat ch _ h''

theorem digChar_ne (d : ℕ) (h : d < 10) :
    digChar d ≠ 'c' ∧ digChar d ≠ '.' := by
  interval_cases d <;> exact ⟨by decide, by decide⟩

theorem c_notMem_encOptS (o : Option (List Char)) : 'c' ∉ encOptS o := by
  intro h
  rcases mem_encOptS 'c' o h with h' | h' | h' | ⟨d, hd, h'⟩
  · exact absurd h' (by decide)
  · exact absurd h' (by decide)
  · exact absurd h' (by decide)
  · exact (digChar_ne d hd).1 h'.symm

theorem c_notMem_encOptI (o : Option ℤ) : 'c' ∉ encOptI o := by
  intro h
  rcases mem_encOptI 'c' o h with h' | h' | h' | h' | ⟨d, hd, h'⟩
  · exact absurd h' (by decide)
  · exact absurd h' (by decide)
  · exact absurd h' (by decide)
  · exact absurd h' (by decide)
  · exact (digChar_ne d hd).1 h'.symm

theorem mem_encClaims (ch : Char) (cm : ClaimsObj) (h : ch ∈ encClaims cm) :
    ch = 'c' ∨ ch = 'n' ∨ ch = 'j' ∨ ch = 'm' ∨ ch = 'q' ∨ ch = 'g' ∨
      ∃ d, d < 10 ∧ ch = digChar d := by
  unfold encClaims at h
  rcases List.mem_append.mp h with h | h
  · rcases mem_encOptS ch _ h with h' | h' | h' | h'
    · right; left; exact h'
    · right; right; left; exact h'
    · right; right; right; right; right; left; exact h'
    · right; right; right; right; right; right; exact h'
  · rcases List.mem_cons.mp h with h | h
    · left; exact h
    · rcases List.mem_append.mp h with h | h
      · rcases mem_encOptI ch _ h with h' | h' | h' | h' | h'
        · right; left; exact h'
        · right; right; left; exact h'
        · right; right; right; left; exact h'
        · right; right; right; right; left; exact h'
        · right; right; right; right; right; right; exact h'
      · rcases List.mem_cons.mp h with h | h
        · left; exact h
        · rcases List.mem_append.mp h with h | h
          · rcases mem_encOptI ch _ h with h' | h' | h' | h' | h'
            · right; left; exact h'
            · right; right; left; exact h'
            · right; right; right; left; exact h'
            · right; right; right; right; left; exact h'
            · right; right; right; right; right; right; exact h'
          · rcases List.mem_cons.mp h with h | h
            · left; exact h
            · rcases mem_encOptS ch _ h with h' | h' | h' | h'
              · right; left; exact h'
              · right; right; left; exact h'
              · right; right; right; right; right; left; exact h'
              · right; right; right; right; right; right; exact h'

theorem dot_notMem_encClaims (cm : ClaimsObj) : '.' ∉ encClaims cm := by
  intro h
  rcases mem_encClaims '.' cm h with h' | h' | h' | h' | h' | h' | ⟨d, hd, h'⟩
  · exact absurd h' (by decide)
  · exact absurd h' (by decide)
  · exact absurd h' (by decide)
  · exact absurd h' (by decide)
  · exact absurd h' (by decide)
  · exact absurd h' (by decide)
  · exact (digChar_ne d hd).2 h'.symm

theorem dot_notMem_encStrL (s : List Char) : '.' ∉ encStrL s := by
  intro h
  rcases mem_encStrL '.' s h with h' | ⟨d, hd, h'⟩
  · exact absurd h' (by decide)
  · exact (digChar_ne d hd).2 h'.symm

theorem decClaims_encClaims (cm : ClaimsObj) : decClaims (encClaims cm) = some cm := by
  unfold decClaims encClaims
  rw [splitOnC_append 'c' _ _ (c_notMem_encOptS _),
    splitOnC_append 'c' _ _ (c_notMem_encOptI _),
    splitOnC_append 'c' _ _ (c_notMem_encOptI _),
    splitOnC_no_delim 'c' _ (c_notMem_encOptS _)]
  simp only [decStrL_encStrL_opt, decOptI_encOptI, opt_asString_data]

/-! ### Token assembly and verification -/

/-- Header segment of every issued token: the pinned `HS256` algorithm. -/
def headerHS : List Char := encStrL "HS256".data

/-- Modelled from the spec: the symmetric MAC (HMAC-SHA256 + base64url in
PyJWT) is a deterministic, dot-free function of the key and the signed
bytes.  Only determinism and recompute-and-compare verification are used. -/
def hmacModel (key msg : List Char) : List Char := encStrL (key ++ msg)

/-- Modelled from the spec: PyJWT compact serialization — three dot-separated
segments `header.claims.signature`, signature computed over
`header.claims`. -/
def jwtEncode (cm : ClaimsObj) (key : String) : List Char :=
  headerHS ++ ('.' :: (encClaims cm ++
    ('.' :: hmacModel key.data (headerHS ++ ('.' :: encClaims cm)))))

/-- Errors raised by the modelled `jwt.decode`. -/
inductive JwtLibError where
  | expiredSignature : JwtLibError
  | invalidToken : JwtLibError
deriving DecidableEq

/-- `JWTPayload` from `jwt_handler.py`: the four mandatory decoded claims
(timestamps kept as integer epoch seconds). -/
structure JWTPayload where
  sub : String
  iat : ℤ
  exp : ℤ
  jti : String
deriving DecidableEq

/-- Modelled from the spec: PyJWT `jwt.decode(token, key,
algorithms=["HS256"], options={require: [sub, iat, exp, jti], verify_exp,
verify_iat})` — reject malformed serializations, tokens claiming a different
or `none` algorithm, bad signatures and missing required claims as
`InvalidTokenError`; report a token whose `exp` lies before the current time
as `ExpiredSignatureError`; otherwise return the decoded claims. -/
def jwtDecode (token : List Char) (key : String) (now : ℤ) :
    Except JwtLibError JWTPayload :=
  match splitOnC '.' token with
  | [h, p, s] =>
    if decStrL h = "HS256".data then
      if s = hmacModel key.data (h ++ ('.' :: p)) then
        match decClaims p with
        | none => .error .invalidToken
        | some cm =>
          if cm.sub.isNone ∨ cm.iat.isNone ∨ cm.exp.isNone ∨ cm.jti.isNone then
            .error .invalidToken
          else if cm.exp.getD 0 < now then .error .expiredSignature
          else .ok ⟨cm.sub.getD "", cm.iat.getD 0, cm.exp.getD 0, cm.jti.getD ""⟩
      else .error .invalidToken
    else .error .invalidToken
  | _ => .error .invalidToken

/-- `AuthSettings` from `settings.py` (the fields the auth core reads). -/
structure AuthSettings where
  auth_required : Bool
  jwt_secret : Option String
  pin_hash : Option String
  token_ttl_seconds : ℤ
deriving DecidableEq

/-- Python falsiness of an optional string (`None` or `""`). -/
def isBlank : Option String → Bool
  | none => true
  | some s => decide (s = "")

/-- Errors of `verify_access_token`: `JWTExpiredError` / `JWTInvalidError`. -/
inductive JWTVerifyError where
  | expired : JWTVerifyError
  | invalid : JWTVerifyError
deriving DecidableEq

/-- `verify_access_token` from `jwt_handler.py`: fail `invalid` when no
secret is configured; decode with the pinned algorithm and required claims,
mapping `ExpiredSignatureError` to the expired error and every
`InvalidTokenError` to the invalid error. -/
def verify_access_token (settings : AuthSettings) (now : ℤ) (token : String) :
    Except JWTVerifyError JWTPayload :=
  if isBlank settings.jwt_secret then .error .invalid
  else
    match jwtDecode token.data (settings.jwt_secret.getD "") now with
    | .ok p => .ok p
    | .error .expiredSignature => .error .expired
    | .error .invalidToken => .error .invalid

/-- `create_access_token` from `jwt_handler.py`: requires a configured
secret; builds the claim set `{sub, iat = now, exp = now + ttl, jti}` and
signs it.  The fresh `uuid4` token id is passed in as `jti`. -/
def create_access_token (settings : AuthSettings) (now : ℤ) (jti : String)
    (subject : String) (ttl_seconds : Option ℤ) : Except String (String × ℤ) :=
  if isBlank settings.jwt_secret then .error "AUTH_JWT_SECRET not configured"
  else
    .ok ((jwtEncode
            ⟨some subject, some now,
             some (now + ttl_seconds.getD settings.token_ttl_seconds), some jti⟩
            (settings.jwt_secret.getD "")).asString,
         now + ttl_seconds.getD settings.token_ttl_seconds)

/-- A token string assembled from three segments. -/
def mkToken (h p s : List Char) : String :=
  (h ++ ('.' :: (p ++ ('.' :: s)))).asString

theorem data_asString (l : List Char) : (l.asString).data = l := rfl

theorem dot_notMem_headerHS : '.' ∉ headerHS := dot_notMem_encStrL _

theorem dot_notMem_hmacModel (key msg : List Char) : '.' ∉ hmacModel key msg :=
  dot_notMem_encStrL _

theorem splitOnC_token (h p s : List Char) (hh : '.' ∉ h) (hp : '.' ∉ p)
    (hs : '.' ∉ s) :
    splitOnC '.' (h ++ ('.' :: (p ++ ('.' :: s)))) = [h, p, s] := by
  rw [splitOnC_append '.' h _ hh, splitOnC_append '.' p _ hp,
    splitOnC_no_delim '.' s hs]

theorem jwtDecode_seg (h p s : List Char) (key : String) (now : ℤ)
    (hh : '.' ∉ h) (hp : '.' ∉ p) (hs : '.' ∉ s) :
    jwtDecode (h ++ ('.' :: (p ++ ('.' :: s)))) key now =
      (if decStrL h = "HS256".data then
        if s = hmacModel key.data (h ++ ('.' :: p)) then
          match decClaims p with
          | none => .error .invalidToken
          | some cm =>
            if cm.sub.isNone ∨ cm.iat.isNone ∨ cm.exp.isNone ∨ cm.jti.isNone then
              .error .invalidToken
            else if cm.exp.getD 0 < now then .error .expiredSignature
            else .ok ⟨cm.sub.getD "", cm.iat.getD 0, cm.exp.getD 0, cm.jti.getD ""⟩
        else .error .invalidToken
      else .error .invalidToken) := by
  unfold jwtDecode
  rw [splitOnC_token h p s hh hp hs]

theorem jwtDecode_encode (cm : ClaimsObj) (key : String) (now : ℤ) :
    jwtDecode (jwtEncode cm key) key now =
      (if cm.sub.isNone ∨ cm.iat.isNone ∨ cm.exp.isNone ∨ cm.jti.isNone then
        .error .invalidToken
      else if cm.exp.getD 0 < now then .error .expiredSignature
      else .ok ⟨cm.sub.getD "", cm.iat.getD 0, cm.exp.getD 0, cm.jti.getD ""⟩) := by
  unfold jwtEncode
  rw [jwtDecode_seg _ _ _ key now dot_notMem_headerHS (dot_notMem_encClaims cm)
    (dot_notMem_hmacModel _ _)]
  rw [if_pos (by rw [headerHS, decStrL_encStrL]), if_pos rfl,
    decClaims_encClaims]

theorem jwtDecode_not3 (token : List Char) (key : String) (now : ℤ)
    (h : (splitOnC '.' token).length ≠ 3) :
    jwtDecode token key now = .error .invalidToken := by
  unfold jwtDecode
  rcases hsp : splitOnC '.' token with _ | ⟨a, _ | ⟨b, _ | ⟨c0, _ | ⟨d, l⟩⟩⟩⟩
  · rfl
  · rfl
  · rfl
  · exact absurd (by rw [hsp]; rfl) h
  · rfl

theorem verify_invalid_of_decode (settings : AuthSettings) (now : ℤ)
    (token : String)
    (h : jwtDecode token.data (settings.jwt_secret.getD "") now =
      .error .invalidToken) :
    verify_access_token settings now token = .error .invalid := by
  by_cases hb : isBlank settings.jwt_secret
  · simp [verify_access_token, hb]
  · simp [verify_access_token, hb, h]

theorem string_data_inj (a b : String) (h : a.data = b.data) : a = b := by
  cases a
  cases b
  exact congrArg String.mk h

theorem option_some_getD {α : Type} (o : Option α) (d : α)
    (h : ¬o = none) : o = some (o.getD d) := by
  cases o with
  | none => exact absurd rfl h
  | some a => rfl

theorem jwtDecode_ok_inv (token : List Char) (key : String) (now : ℤ)
    (q : JWTPayload) (hok : jwtDecode token key now = .ok q) :
    ∃ a b s cm, splitOnC '.' token = [a, b, s] ∧ decClaims b = some cm ∧
      cm.sub = some q.sub ∧ cm.iat = some q.iat ∧ cm.exp = some q.exp ∧
      cm.jti = some q.jti ∧ now ≤ q.exp := by
  unfold jwtDecode at hok
  rcases hsp : splitOnC '.' token with _ | ⟨a, _ | ⟨b, _ | ⟨s, _ | ⟨d, l⟩⟩⟩⟩ <;>
    rw [hsp] at hok
  · exact absurd hok (by simp)
  · exact absurd hok (by simp)
  · exact absurd hok (by simp)
  · have hok1 :
        (if decStrL a = "HS256".data then
          if s = hmacModel key.data (a ++ ('.' :: b)) then
            match decClaims b with
            | none => (.error .invalidToken : Except JwtLibError JWTPayload)
            | some cm =>
              if cm.sub.isNone ∨ cm.iat.isNone ∨ cm.exp.isNone ∨ cm.jti.isNone then
                .error .invalidToken
              else if cm.exp.getD 0 < now then .error .expiredSignature
              else .ok ⟨cm.sub.getD "", cm.iat.getD 0, cm.exp.getD 0, cm.jti.getD ""⟩
          else .error .invalidToken
        else .error .invalidToken) = .ok q := hok
    split_ifs at hok1 with h1 h2
    cases hdc : decClaims b with
    | none =>
      rw [hdc] at hok1
      exact absurd hok1 (by simp)
    | some cm =>
      rw [hdc] at hok1
      have hok2 :
          (if cm.sub.isNone ∨ cm.iat.isNone ∨ cm.exp.isNone ∨ cm.jti.isNone then
            (.error .invalidToken : Except JwtLibError JWTPayload)
          else if cm.exp.getD 0 < now then .error .expiredSignature
          else .ok ⟨cm.sub.getD "", cm.iat.getD 0, cm.exp.getD 0, cm.jti.getD ""⟩)
            = .ok q := hok1
      split_ifs at hok2 with h3 h4
      push_neg at h3
      obtain ⟨hs1, hs2, hs3, hs4⟩ := h3
      obtain rfl : q = ⟨cm.sub.getD "", cm.iat.getD 0, cm.exp.getD 0, cm.jti.getD ""⟩ := by
        have := hok2.symm
        simpa using this
      refine ⟨a, b, s, cm, rfl, hdc, ?_, ?_, ?_, ?_, ?_⟩
      · exact option_some_getD _ _ (by simpa using hs1)
      · exact option_some_getD _ _ (by simpa using hs2)
      · exact option_some_getD _ _ (by simpa using hs3)
      · exact option_some_getD _ _ (by simpa using hs4)
      · exact not_lt.mp h4
  · exact absurd hok (by simp)

/-- C3: `verify_access_token` fails with the invalid-kind error
(`JWTInvalidError`) on every structural or signature failure — wrong segment
count, wrong or `none` algorithm, wrong signature, or any of the four
required claims missing (never silently defaulted) — and with the
expired-kind error (`JWTExpiredError`) on a well-signed complete token whose
`exp` lies before the current time; on success the payload carries exactly
the four claims decoded from the token, with `exp` not in the past. -/
theorem claim_C3_verify_errors (settings : AuthSettings) (now : ℤ) :
    (∀ t : String, (splitOnC '.' t.data).length ≠ 3 →
       verify_access_token settings now t = .error .invalid)
    ∧ (∀ (alg : String) (cm : ClaimsObj) (s : List Char),
       alg ≠ "HS256" → '.' ∉ s →
       verify_access_token settings now
         (mkToken (encStrL alg.data) (encClaims cm) s) = .error .invalid)
    ∧ (∀ (cm : ClaimsObj) (s : List Char), '.' ∉ s →
       s ≠ hmacModel (settings.jwt_secret.getD "").data
             (headerHS ++ ('.' :: encClaims cm)) →
       verify_access_token settings now
         (mkToken headerHS (encClaims cm) s) = .error .invalid)
    ∧ (∀ cm : ClaimsObj,
       (cm.sub = none ∨ cm.iat = none ∨ cm.exp = none ∨ cm.jti = none) →
       verify_access_token settings now
         ((jwtEncode cm (settings.jwt_secret.getD "")).asString) = .error .invalid)
    ∧ (isBlank settings.jwt_secret = false →
       ∀ (subject jti : String) (iat expv : ℤ), expv < now →
       verify_access_token settings now
         ((jwtEncode ⟨some subject, some iat, some expv, some jti⟩
            (settings.jwt_secret.getD "")).asString) = .error .expired)
    ∧ (∀ (t : String) (p : JWTPayload),
       verify_access_token settings now t = .ok p →
       ∃ h0 pl s cm, splitOnC '.' t.data = [h0, pl, s] ∧ decClaims pl = some cm ∧
         cm.sub = some p.sub ∧ cm.iat = some p.iat ∧ cm.exp = some p.exp ∧
         cm.jti = some p.jti ∧ now ≤ p.exp) := by
  refine ⟨?_, ?_, ?_, ?_, ?_, ?_⟩
  · intro t h
    exact verify_invalid_of_decode settings now t (jwtDecode_not3 _ _ _ h)
  · intro alg cm s halg hs
    apply verify_invalid_of_decode
    rw [show (mkToken (encStrL alg.data) (encClaims cm) s).data =
      encStrL alg.data ++ ('.' :: (encClaims cm ++ ('.' :: s))) from rfl]
    rw [jwtDecode_seg _ _ _ _ _ (dot_notMem_encStrL _) (dot_notMem_encClaims _) hs]
    rw [decStrL_encStrL]
    rw [if_neg (fun hh => halg (string_data_inj _ _ hh))]
  · intro cm s hs hsig
    apply verify_invalid_of_decode
    rw [show (mkToken headerHS (encClaims cm) s).data =
      headerHS ++ ('.' :: (encClaims cm ++ ('.' :: s))) from rfl]
    rw [jwtDecode_seg _ _ _ _ _ dot_notMem_headerHS (dot_notMem_encClaims _) hs]
    rw [if_pos (by rw [headerHS, decStrL_encStrL]), if_neg hsig]
  · intro cm hmiss
    apply verify_invalid_of_decode
    rw [show ((jwtEncode cm (settings.jwt_secret.getD "")).asString).data =
      jwtEncode cm (settings.jwt_secret.getD "") from rfl]
    rw [jwtDecode_encode]
    rcases hmiss with h | h | h | h <;> rw [if_pos (by rw [h]; simp)]
  · intro hb subject jti iat expv hexp
    rw [verify_access_token, if_neg (by rw [hb]; exact Bool.false_ne_true)]
    rw [show ((jwtEncode ⟨some subject, some iat, some expv, some jti⟩
        (settings.jwt_secret.getD "")).asString).data =
      jwtEncode ⟨some subject, some iat, some expv, some jti⟩
        (settings.jwt_secret.getD "") from rfl]
    rw [jwtDecode_encode]
    rw [if_neg (by simp), if_pos (by simpa using hexp)]
  · intro t p hok
    by_cases hb : isBlank settings.jwt_secret
    · rw [verify_access_token, if_pos hb] at hok
      exact absurd hok (by simp)
    · rw [verify_access_token, if_neg hb] at hok
      cases hdec : jwtDecode t.data (settings.jwt_secret.getD "") now with
      | error e =>
        rw [hdec] at hok
        cases e <;> exact absurd hok (by simp)
      | ok q =>
        rw [hdec] at hok
        obtain rfl : q = p := by simpa using hok
        exact jwtDecode_ok_inv _ _ _ _ hdec

/-- Witness for C3: with secret `"k"` at time 0, a one-segment token is
rejected as invalid, and a well-signed token with `exp = -1` is rejected as
expired. -/
theorem claim_C3_witness :
    verify_access_token ⟨false, some "k", none, 5⟩ 0 "abc" = .error .invalid
    ∧ verify_access_token ⟨false, some "k", none, 5⟩ 0
        ((jwtEncode ⟨some "a", some (-1), some (-1), some "b"⟩
          ((some "k").getD "")).asString) = .error .expired := by
  constructor
  · exact (claim_C3_verify_errors ⟨false, some "k", none, 5⟩ 0).1 "abc" (by decide)
  · exact (claim_C3_verify_errors ⟨false, some "k", none, 5⟩ 0).2.2.2.2.1
      (by decide) "a" "b" (-1) (-1) (by decide)

/-- C4: round-trip — for any settings with a configured signing secret, any
subject and token id, a token freshly issued at `now` verifies successfully
at any time `now'` not past its expiry, and the decoded subject equals the
issued subject. -/
theorem claim_C4_round_trip (settings : AuthSettings) (subject jti : String)
    (now nowV : ℤ)
    (hsecret : isBlank settings.jwt_secret = false)
    (hfresh : nowV ≤ now + settings.token_ttl_seconds) :
    ∃ tok : String,
      create_access_token settings now jti subject none =
        .ok (tok, now + settings.token_ttl_seconds) ∧
      ∃ p : JWTPayload,
        verify_access_token settings nowV tok = .ok p ∧ p.sub = subject := by
  refine ⟨(jwtEncode ⟨some subject, some now,
      some (now + settings.token_ttl_seconds), some jti⟩
      (settings.jwt_secret.getD "")).asString, ?_, ?_⟩
  · rw [create_access_token, if_neg (by rw [hsecret]; exact Bool.false_ne_true)]
    rfl
  · rw [verify_access_token, if_neg (by rw [hsecret]; exact Bool.false_ne_true)]
    rw [show ((jwtEncode ⟨some subject, some now,
        some (now + settings.token_ttl_seconds), some jti⟩
        (settings.jwt_secret.getD "")).asString).data =
      jwtEncode ⟨some subject, some now,
        some (now + settings.token_ttl_seconds), some jti⟩
        (settings.jwt_secret.getD "") from rfl]
    rw [jwtDecode_encode]
    rw [if_neg (by simp), if_neg (by simpa using not_lt.mpr hfresh)]
    exact ⟨⟨subject, now, now + settings.token_ttl_seconds, jti⟩, rfl, rfl⟩

/-- Witness for C4: issuing for subject `"a"` with secret `"k"` and ttl 5 at
time 0 verifies at time 3 and returns subject `"a"`. -/
theorem claim_C4_witness :
    ∃ tok : String,
      create_access_token ⟨false, some "k", none, 5⟩ 0 "b" "a" none =
        .ok (tok, 0 + (5 : ℤ)) ∧
      ∃ p : JWTPayload,
        verify_access_token ⟨false, some "k", none, 5⟩ 3 tok = .ok p ∧
        p.sub = "a" :=
  claim_C4_round_trip ⟨false, some "k", none, 5⟩ "a" "b" 0 3 (by decide) (by decide)

theorem set_ne_of_get_ne (l : List Char) (i : ℕ) (c' : Char) (hi : i < l.length)
    (hc : c' ≠ l.get ⟨i, hi⟩) : l.set i c' ≠ l := by
  intro heq
  have h2 : (l.set i c')[i]? = some c' := by
    rw [List.getElem?_eq_getElem (by simpa using hi)]
    exact congrArg some (List.getElem_set_self _)
  rw [heq] at h2
  rw [List.getElem?_eq_getElem hi] at h2
  have h3 : l[i] = c' := by simpa using h2
  exact hc (by rw [← h3]; rfl)

/-- C7: changing any single character of the signature segment of a validly
issued, unexpired token makes `verify_access_token` fail with the
invalid-kind error (`JWTInvalidError`) — never the expired-kind error:
replacing the character by `'.'` breaks the three-segment layout, and any
other replacement makes the signature comparison fail before expiry is ever
examined. -/
theorem claim_C7_tamper_sensitivity (settings : AuthSettings)
    (subject jti : String) (now nowV : ℤ)
    (hsecret : isBlank settings.jwt_secret = false)
    (hfresh : nowV ≤ now + settings.token_ttl_seconds) :
    ∀ (tok : String) (expv : ℤ),
      create_access_token settings now jti subject none = .ok (tok, expv) →
    ∀ (h p s : List Char), splitOnC '.' tok.data = [h, p, s] →
    ∀ (i : ℕ) (hi : i < s.length) (c' : Char), c' ≠ s.get ⟨i, hi⟩ →
      verify_access_token settings nowV (mkToken h p (s.set i c')) =
        .error .invalid := by
  intro tok expv hcreate h p s hsp i hi c' hc
  rw [create_access_token,
    if_neg (by rw [hsecret]; exact Bool.false_ne_true)] at hcreate
  obtain ⟨htok, hexp⟩ :
      (jwtEncode ⟨some subject, some now,
        some (now + settings.token_ttl_seconds), some jti⟩
        (settings.jwt_secret.getD "")).asString = tok ∧
      now + (none : Option ℤ).getD settings.token_ttl_seconds = expv := by
    simpa using hcreate
  subst htok
  rw [show ((jwtEncode ⟨some subject, some now,
      some (now + settings.token_ttl_seconds), some jti⟩
      (settings.jwt_secret.getD "")).asString).data =
    headerHS ++ ('.' :: (encClaims ⟨some subject, some now,
      some (now + settings.token_ttl_seconds), some jti⟩ ++
      ('.' :: hmacModel (settings.jwt_secret.getD "").data
        (headerHS ++ ('.' :: encClaims ⟨some subject, some now,
          some (now + settings.token_ttl_seconds), some jti⟩))))) from rfl] at hsp
  rw [splitOnC_token _ _ _ dot_notMem_headerHS (dot_notMem_encClaims _)
    (dot_notMem_hmacModel _ _)] at hsp
  obtain ⟨hh, hp2, hs2⟩ :
      headerHS = h ∧
      encClaims ⟨some subject, some now,
        some (now + settings.token_ttl_seconds), some jti⟩ = p ∧
      hmacModel (settings.jwt_secret.getD "").data
        (headerHS ++ ('.' :: encClaims ⟨some subject, some now,
          some (now + settings.token_ttl_seconds), some jti⟩)) = s := by
    simpa using hsp
  subst hh
  subst hp2
  subst hs2
  by_cases hdot : c' = '.'
  · subst hdot
    apply verify_invalid_of_decode
    rw [show (mkToken headerHS
        (encClaims ⟨some subject, some now,
          some (now + settings.token_ttl_seconds), some jti⟩)
        ((hmacModel (settings.jwt_secret.getD "").data
          (headerHS ++ ('.' :: encClaims ⟨some subject, some now,
            some (now + settings.token_ttl_seconds), some jti⟩))).set i '.')).data =
      headerHS ++ ('.' :: (encClaims ⟨some subject, some now,
        some (now + settings.token_ttl_seconds), some jti⟩ ++
        ('.' :: (hmacModel (settings.jwt_secret.getD "").data
          (headerHS ++ ('.' :: encClaims ⟨some subject, some now,
            some (now + settings.token_ttl_seconds), some jti⟩))).set i '.'))) from rfl]
    apply jwtDecode_not3
    rw [List.set_eq_take_append_cons_drop, if_pos hi]
    rw [splitOnC_append '.' headerHS _ dot_notMem_headerHS,
      splitOnC_append '.' _ _ (dot_notMem_encClaims _),
      splitOnC_append '.' _ _
        (fun hm => dot_notMem_hmacModel _ _ (List.mem_of_mem_take hm))]
    simp only [List.length_cons]
    intro hlen
    have h0 : (splitOnC '.' ((hmacModel (settings.jwt_secret.getD "").data
        (headerHS ++ ('.' :: encClaims ⟨some subject, some now,
          some (now + settings.token_ttl_seconds), some jti⟩))).drop (i + 1))).length = 0 := by
      omega
    exact splitOnC_ne_nil _ _ (List.length_eq_zero.mp h0)
  · apply verify_invalid_of_decode
    have hsdot : '.' ∉ (hmacModel (settings.jwt_secret.getD "").data
        (headerHS ++ ('.' :: encClaims ⟨some subject, some now,
          some (now + settings.token_ttl_seconds), some jti⟩))).set i c' := by
      intro hm
      rcases List.mem_or_eq_of_mem_set hm with hm' | hm'
      · exact dot_notMem_hmacModel _ _ hm'
      · exact hdot hm'.symm
    rw [show (mkToken headerHS
        (encClaims ⟨some subject, some now,
          some (now + settings.token_ttl_seconds), some jti⟩)
        ((hmacModel (settings.jwt_secret.getD "").data
          (headerHS ++ ('.' :: encClaims ⟨some subject, some now,
            some (now + settings.token_ttl_seconds), some jti⟩))).set i c')).data =
      headerHS ++ ('.' :: (encClaims ⟨some subject, some now,
        some (now + settings.token_ttl_seconds), some jti⟩ ++
        ('.' :: (hmacModel (settings.jwt_secret.getD "").data
          (headerHS ++ ('.' :: encClaims ⟨some subject, some now,
            some (now + settings.token_ttl_seconds), some jti⟩))).set i c'))) from rfl]
    rw [jwtDecode_seg _ _ _ _ _ dot_notMem_headerHS (dot_notMem_encClaims _) hsdot]
    rw [if_pos (by rw [headerHS, decStrL_encStrL]),
      if_neg (set_ne_of_get_ne _ i c' hi hc)]

/-- Witness for C7: a concrete issued token (secret `"k"`, subject `"a"`,
ttl 5, issued at 0) with the first signature character replaced by `'z'` is
rejected as invalid at time 0. -/
theorem claim_C7_witness :
    verify_access_token ⟨false, some "k", none, 5⟩ 0
      (mkToken headerHS
        (encClaims ⟨some "a", some 0, some ((0 : ℤ) + 5), some "b"⟩)
        ((hmacModel ((some "k" : Option String).getD "").data
          (headerHS ++ ('.' :: encClaims
            ⟨some "a", some 0, some ((0 : ℤ) + 5), some "b"⟩))).set 0 'z')) =
      .error .invalid := by
  exact claim_C7_tamper_sensitivity ⟨false, some "k", none, 5⟩ "a" "b" 0 0
    (by decide) (by decide)
    ((jwtEncode ⟨some "a", some 0, some ((0 : ℤ) + 5), some "b"⟩
      ((some "k" : Option String).getD "")).asString) ((0 : ℤ) + 5) rfl
    headerHS
    (encClaims ⟨some "a", some 0, some ((0 : ℤ) + 5), some "b"⟩)
    (hmacModel ((some "k" : Option String).getD "").data
      (headerHS ++ ('.' :: encClaims
        ⟨some "a", some 0, some ((0 : ℤ) + 5), some "b"⟩)))
    rfl 0 (by decide) 'z' (by decide)

/-! ### Auth gate (`utils/auth/brain_auth.py`) -/

/-- `BrainAuthResult`: `subject` is derived from the payload when present. -/
structure BrainAuthResult where
  authenticated : Bool
  payload : Option JWTPayload
  subject : Option String
deriving DecidableEq

/-- The `BrainAuthResult.__init__` logic: `subject = payload.sub if payload
else None`. -/
def mkBrainAuthResult (authenticated : Bool) (payload : Option JWTPayload) :
    BrainAuthResult :=
  ⟨authenticated, payload, payload.map JWTPayload.sub⟩

/-- The observable part of a raised `HTTPException`: status and error code. -/
structure AuthHTTPError where
  status_code : ℕ
  code : String
deriving DecidableEq

/-- `require_brain_auth`: with no credentials, enforce `auth_required`;
with credentials, always validate, mapping expiry and invalidity to 401
errors with stable codes. -/
def require_brain_auth (settings : AuthSettings) (now : ℤ)
    (credentials : Option String) : Except AuthHTTPError BrainAuthResult :=
  match credentials with
  | none =>
    if settings.auth_required then .error ⟨401, "auth_required"⟩
    else .ok (mkBrainAuthResult false none)
  | some token =>
    match verify_access_token settings now token with
    | .ok payload => .ok (mkBrainAuthResult true (some payload))
    | .error .expired => .error ⟨401, "token_expired"⟩
    | .error .invalid => .error ⟨401, "invalid_token"⟩

/-- `optional_brain_auth`: total — every outcome is an ordinary
`BrainAuthResult`, so no exception can escape. -/
def optional_brain_auth (settings : AuthSettings) (now : ℤ)
    (credentials : Option String) : BrainAuthResult :=
  match credentials with
  | none => mkBrainAuthResult false none
  | some token =>
    match verify_access_token settings now token with
    | .ok payload => mkBrainAuthResult true (some payload)
    | .error _ => mkBrainAuthResult false none

/-- C5: with no token presented, `require_brain_auth` fails with HTTP 401
and error code `auth_required` when `auth_required` is true, and returns an
unauthenticated `BrainAuthResult` without raising when it is false. -/
theorem claim_C5_no_token_gate (settings : AuthSettings) (now : ℤ) :
    (settings.auth_required = true →
      require_brain_auth settings now none = .error ⟨401, "auth_required"⟩)
    ∧ (settings.auth_required = false →
      require_brain_auth settings now none = .ok ⟨false, none, none⟩) := by
  constructor
  · intro h
    simp [require_brain_auth, h]
  · intro h
    simp [require_brain_auth, h, mkBrainAuthResult]

/-- Witness for C5: both settings of the `auth_required` toggle, no token. -/
theorem claim_C5_witness :
    require_brain_auth ⟨true, none, none, 0⟩ 0 none = .error ⟨401, "auth_required"⟩
    ∧ require_brain_auth ⟨false, none, none, 0⟩ 0 none = .ok ⟨false, none, none⟩ :=
  ⟨(claim_C5_no_token_gate ⟨true, none, none, 0⟩ 0).1 rfl,
   (claim_C5_no_token_gate ⟨false, none, none, 0⟩ 0).2 rfl⟩

/-- C6: `optional_brain_auth` never raises (it is a total function into
`BrainAuthResult`): no token gives `authenticated = false`; a token whose
verification fails — for any reason — gives `authenticated = false` instead
of propagating the error; a valid token gives `authenticated = true` with
the decoded payload and subject. -/
theorem claim_C6_optional_never_raises (settings : AuthSettings) (now : ℤ) :
    optional_brain_auth settings now none = ⟨false, none, none⟩
    ∧ (∀ (t : String) (e : JWTVerifyError),
        verify_access_token settings now t = .error e →
        optional_brain_auth settings now (some t) = ⟨false, none, none⟩)
    ∧ (∀ (t : String) (p : JWTPayload),
        verify_access_token settings now t = .ok p →
        optional_brain_auth settings now (some t) = ⟨true, some p, some p.sub⟩) := by
  refine ⟨rfl, ?_, ?_⟩
  · intro t e h
    simp [optional_brain_auth, h, mkBrainAuthResult]
  · intro t p h
    simp [optional_brain_auth, h, mkBrainAuthResult]

/-- Witness for C6: no token, and a token that fails verification (no secret
configured), both yield the unauthenticated result. -/
theorem claim_C6_witness :
    optional_brain_auth ⟨false, none, none, 0⟩ 0 none = ⟨false, none, none⟩
    ∧ optional_brain_auth ⟨false, none, none, 0⟩ 0 (some "x") = ⟨false, none, none⟩ :=
  ⟨(claim_C6_optional_never_raises ⟨false, none, none, 0⟩ 0).1,
   (claim_C6_optional_never_raises ⟨false, none, none, 0⟩ 0).2.1 "x" .invalid rfl⟩

/-! ### PIN verification and login flow (`routers/brain_auth.py`) -/

/-- `_verify_pin` from `routers/brain_auth.py`.  `bcrypt.checkpw` is not
part of this repository; modelled from the spec as an arbitrary function
that either returns a boolean or raises (an `Except` error, e.g. on a
malformed stored hash).  The `try/except` collapses every exception to
`false`. -/
def verify_pin (checkpw : String → String → Except String Bool)
    (pin pin_hash : String) : Bool :=
  match checkpw pin pin_hash with
  | .ok b => b
  | .error _ => false

/-- C8: `_verify_pin` always returns a boolean and never propagates an
exception (in the model it is a total function into `Bool`): any exception
from the hashing library yields `false`, exactly like a wrong PIN, so the
two cases are indistinguishable by error type. -/
theorem claim_C8_verify_pin_total
    (checkpw : String → String → Except String Bool) (pin pin_hash : String) :
    (∀ e, checkpw pin pin_hash = .error e →
      verify_pin checkpw pin pin_hash = false)
    ∧ (∀ b, checkpw pin pin_hash = .ok b →
      verify_pin checkpw pin pin_hash = b) := by
  constructor
  · intro e h
    simp [verify_pin, h]
  · intro b h
    simp [verify_pin, h]

/-- Witness for C8: a hashing backend that raises on a malformed hash yields
`false`, and one that reports a mismatch also yields `false`. -/
theorem claim_C8_witness :
    verify_pin (fun _ _ => .error "Invalid salt") "1234" "nothash" = false
    ∧ verify_pin (fun _ _ => .ok false) "1234" "$2b$12$x" = false :=
  ⟨(claim_C8_verify_pin_total (fun _ _ => .error "Invalid salt")
      "1234" "nothash").1 "Invalid salt" rfl,
   (claim_C8_verify_pin_total (fun _ _ => .ok false)
      "1234" "$2b$12$x").2 false rfl⟩

/-- Outcomes of the `login` route: success or one of the structured errors
(429 rate limit, 401 invalid PIN, 503 auth-not-configured, 503 token error;
`internalError` stands for the unhandled `ValueError` path of the limiter). -/
inductive LoginResult where
  | success (token : String) (expires_at : ℤ) : LoginResult
  | rateLimited (retry_after : ℤ) : LoginResult
  | invalidPin : LoginResult
  | authNotConfigured : LoginResult
  | tokenError : LoginResult
  | internalError : LoginResult
deriving DecidableEq

/-- The `login` handler from `routers/brain_auth.py`, in source order:
rate-limit check (recording the attempt), then the `pin_hash` configuration
check (503), then PIN verification (401), then — only after a successful
verification — limiter reset and token creation. -/
def login (checkpw : String → String → Except String Bool)
    (settings : AuthSettings) (cfg : RateLimitConfig) (st : RLState)
    (pin client_ip : String) (now : ℚ) (jti : String) :
    LoginResult × RLState :=
  match check_and_increment cfg st client_ip now with
  | (.exceeded r, st1) => (.rateLimited r, st1)
  | (.valueError, st1) => (.internalError, st1)
  | (.ok, st1) =>
    if isBlank settings.pin_hash then (.authNotConfigured, st1)
    else if verify_pin checkpw pin (settings.pin_hash.getD "") = false then
      (.invalidPin, st1)
    else
      match create_access_token settings (pyInt now) jti "mrw" none with
      | .error _ => (.tokenError, reset st1 client_ip)
      | .ok (tok, expv) => (.success tok expv, reset st1 client_ip)

theorem lookupA_removeA_self (st : RLState) (c : String) :
    lookupA (removeA st c) c = none := by
  induction st with
  | nil => rfl
  | cons kv rest ih =>
    obtain ⟨k, w⟩ := kv
    rw [removeA, List.filter_cons]
    by_cases hk : k = c
    · rw [if_neg (by simp [hk])]
      exact ih
    · rw [if_pos (by simp [hk])]
      rw [lookupA, if_neg hk]
      exact ih

theorem getA_reset_self (st : RLState) (c : String) : getA (reset st c) c = [] := by
  simp [reset, getA, lookupA_removeA_self]

/-- C10: when the client is not rate limited, `login` records the attempt
before the configuration check, so the 503 auth-not-configured path (and the
401 invalid-PIN path) leave the freshly appended timestamp in place — the
attempt is consumed and never rolled back on an error path; the limiter is
reset (the client's list cleared) only after a successful PIN
verification. -/
theorem claim_C10_login_consumes_attempt
    (checkpw : String → String → Except String Bool) (settings : AuthSettings)
    (cfg : RateLimitConfig) (st : RLState) (pin client_ip : String) (now : ℚ)
    (jti : String)
    (hok : ((prune cfg.window_seconds now (getA st client_ip)).length : ℤ) <
      cfg.max_attempts) :
    (isBlank settings.pin_hash = true →
      (login checkpw settings cfg st pin client_ip now jti).1 =
        .authNotConfigured ∧
      getA (login checkpw settings cfg st pin client_ip now jti).2 client_ip =
        prune cfg.window_seconds now (getA st client_ip) ++ [now])
    ∧ (isBlank settings.pin_hash = false →
       verify_pin checkpw pin (settings.pin_hash.getD "") = false →
      (login checkpw settings cfg st pin client_ip now jti).1 = .invalidPin ∧
      getA (login checkpw settings cfg st pin client_ip now jti).2 client_ip =
        prune cfg.window_seconds now (getA st client_ip) ++ [now])
    ∧ (isBlank settings.pin_hash = false →
       verify_pin checkpw pin (settings.pin_hash.getD "") = true →
      getA (login checkpw settings cfg st pin client_ip now jti).2 client_ip =
        []) := by
  have hchk := check_and_increment_ok cfg st client_ip now hok
  refine ⟨?_, ?_, ?_⟩
  · intro hb
    rw [login, hchk]
    simp [hb, getA_setA_self]
  · intro hb hpin
    rw [login, hchk]
    simp [hb, hpin, getA_setA_self]
  · intro hb hpin
    rw [login, hchk]
    cases hcr : create_access_token settings (pyInt now) jti "mrw" none with
    | error e =>
      simp [hb, hpin, hcr, getA_reset_self]
    | ok r =>
      obtain ⟨tok, expv⟩ := r
      simp [hb, hpin, hcr, getA_reset_self]

/-- Witness for C10: with no `pin_hash` configured and a fresh limiter, a
login attempt gets the 503 outcome and the attempt is recorded anyway. -/
theorem claim_C10_witness :
    (login (fun _ _ => .ok true) ⟨false, none, none, 10⟩ ⟨10, 600⟩ []
      "p" "ip" 0 "j").1 = LoginResult.authNotConfigured
    ∧ getA (login (fun _ _ => .ok true) ⟨false, none, none, 10⟩ ⟨10, 600⟩ []
      "p" "ip" 0 "j").2 "ip" =
        prune 600 0 (getA [] "ip") ++ [0] := by
  exact (claim_C10_login_consumes_attempt (fun _ _ => .ok true)
    ⟨false, none, none, 10⟩ ⟨10, 600⟩ [] "p" "ip" 0 "j" (by decide)).1 rfl
